import Mathlib

/-!
Shallow embedding of the fraud-detection pipeline core (Rust workspace
`fraud_detection_5`) in Lean 4, together with theorems settling the
behavioural claims of the specification.

Conventions of the embedding:
* Rust `async fn`s on `&self` with interior mutability become pure Lean
  functions with explicit state passing.
* The hexagonal ports (`Buffer1Read`, `Buffer2`, `Modelizer`, `Alarm`,
  `Model`) become records of state-transforming functions, mirroring the
  Rust trait generics: a Lean `Ports σ` value plays the role of a set of
  trait implementations with shared mutable state `σ`.
* `rand::rngs::StdRng` becomes an abstract deterministic generator
  `Rng`: a 64-bit state advanced by a concrete mixing function. The
  claims depend only on determinism and on output ranges, never on the
  concrete stream, so any deterministic generator is a faithful model.
* Monetary amounts (`f64` holding `integer cents / 100.0` in the source)
  become exact rationals `cents / 100 : Rat`.
* `uuid::Uuid` (128 random bits) becomes a `Nat` drawn from the RNG.
-/

namespace FraudDetection

-- ===========================================================================
-- Deterministic RNG model (rand::rngs::StdRng)
-- ===========================================================================

/-- Deterministic pseudo-random generator state, modelling `rand::rngs::StdRng`
as an abstract 64-bit-state machine. -/
structure Rng where
  state : Nat
deriving DecidableEq, Repr

/-- Advance the generator one step and emit a 32-bit output word. -/
def rngNext (r : Rng) : Nat × Rng :=
  let s := (r.state * 6364136223846793005 + 1442695040888963407) % (2 ^ 64)
  (s / (2 ^ 32), ⟨s⟩)

/-- Model of `StdRng::seed_from_u64`. -/
def seedFromU64 (seed : Nat) : Rng :=
  ⟨seed % (2 ^ 64)⟩

/-- Model of `rng.random_range(lo..=hi)`: a uniform draw from the inclusive
range `[lo, hi]`. Requires `lo ≤ hi` for the bounds lemma, matching the
panic-freedom precondition of the Rust API. -/
def randomRange (lo hi : Nat) (r : Rng) : Nat × Rng :=
  (lo + (rngNext r).1 % (hi + 1 - lo), (rngNext r).2)

/-- Model of `rng.fill_bytes(&mut [u8; 16])` followed by
`uuid::Builder::from_random_bytes`: 128 random bits as a `Nat`, advancing
the generator. -/
def rngNextU128 (r : Rng) : Nat × Rng :=
  let (a, r1) := rngNext r
  let (b, r2) := rngNext r1
  let (c, r3) := rngNext r2
  let (d, r4) := rngNext r3
  (((a * 2 ^ 32 + b) * 2 ^ 32 + c) * 2 ^ 32 + d, r4)

theorem randomRange_bounds (lo hi : Nat) (r : Rng) (h : lo ≤ hi) :
    lo ≤ (randomRange lo hi r).1 ∧ (randomRange lo hi r).1 ≤ hi := by
  unfold randomRange
  constructor
  · exact Nat.le_add_right _ _
  · have hpos : 0 < hi + 1 - lo := by omega
    have := Nat.mod_lt (rngNext r).1 hpos
    omega

-- ===========================================================================
-- Domain types (src/crates/domain/src/lib.rs)
-- ===========================================================================

/-- `domain::Transaction`. The 128-bit `uuid::Uuid` is a `Nat`; the `f64`
amount (always an exact number of cents divided by 100 in this program)
is an exact rational. -/
structure Transaction where
  id : Nat
  amount : Rat
  last_name : String
deriving DecidableEq, Repr

/-- `domain::InferredTransaction`. -/
structure InferredTransaction where
  transaction : Transaction
  predicted_fraud : Bool
  model_name : String
  model_version : String
deriving DecidableEq, Repr

/-- `domain::PendingTransaction` (wrapped by Logger before persistence). -/
structure PendingTransaction where
  inferred_transaction : InferredTransaction
  is_reviewed : Bool
  actual_fraud : Option Bool
deriving DecidableEq, Repr

/-- `domain::ModelVersion`. -/
inductive ModelVersion where
  | N
  | NMinus1
deriving DecidableEq, Repr

/-- `domain::ModelizerError`. -/
inductive ModelizerError where
  | InferenceFailed (reason : String)
  | SwitchFailed (reason : String)
deriving DecidableEq, Repr

/-- `domain::AlarmError`. -/
inductive AlarmError where
  | DeliveryFailed (reason : String)
deriving DecidableEq, Repr

/-- `domain::BufferError`. -/
inductive BufferError where
  | Full (capacity : Nat)
  | Closed
deriving DecidableEq, Repr

/-- `domain::StorageError` (declared with the Storage port; `Unavailable`
is reserved for concrete backends). -/
inductive StorageError where
  | CapacityExceeded (capacity : Nat)
  | Unavailable
deriving DecidableEq, Repr

/-- `consumer::ConsumerError`. -/
inductive ConsumerError where
  | InvalidConfig (reason : String)
  | Read (e : BufferError)
  | Inference (e : ModelizerError)
  | Write (e : BufferError)
deriving DecidableEq, Repr

/-- `producer::ProducerError`. -/
inductive ProducerError where
  | InvalidConfig (reason : String)
  | Buffer (source : BufferError)
deriving DecidableEq, Repr

-- ===========================================================================
-- ConcurrentBuffer (src/crates/fraud_detection/src/adapters/concurrent_buffer.rs)
-- ===========================================================================

/-- `ConcurrentBufferInner`: the queue contents plus the close flag.
`data` is ordered head-first: reads drain from the front, writes append
at the back. -/
structure BufState (α : Type) where
  data : List α
  closed : Bool
deriving DecidableEq, Repr

/-- `ConcurrentBuffer::new`: empty and open. -/
def BufState.new (α : Type) : BufState α :=
  ⟨[], false⟩

/-- `ConcurrentBuffer::close`: set the closed flag. Idempotent. -/
def BufState.close (s : BufState α) : BufState α :=
  { s with closed := true }

/-- `ConcurrentBuffer::write_batch`: fail with `Closed` when closed,
otherwise append `batch` at the tail. -/
def BufState.write_batch (s : BufState α) (batch : List α) :
    Except BufferError Unit × BufState α :=
  if s.closed then (.error .Closed, s)
  else (.ok (), { s with data := s.data ++ batch })

/-- One attempt of `ConcurrentBuffer::read_batch`'s loop body.
`some (r, s')` means the loop returns `r` leaving state `s'`;
`none` is the empty-and-open case, where the source yields to the
cooperative scheduler (`tokio::task::yield_now`) and retries. -/
def BufState.read_batch_step (s : BufState α) (max : Nat) :
    Option (Except BufferError (List α) × BufState α) :=
  if !s.data.isEmpty then
    let count := Nat.min max s.data.length
    some (.ok (s.data.take count), { s with data := s.data.drop count })
  else if s.closed then some (.error .Closed, s)
  else none

/-- An operation submitted to a concurrent buffer, for whole-history
(FIFO) statements. -/
inductive BufOp (α : Type) where
  | write (batch : List α)
  | read (max : Nat)
  | close

/-- Apply one operation. Besides the new state, report the successfully
written batch (if the op was a successful write) and the successfully
read batch (if the op was a successful read). A read that would yield
(empty-and-open) leaves the state unchanged and reports nothing. -/
def applyOp (s : BufState α) : BufOp α → BufState α × List (List α) × List (List α)
  | .write batch =>
    match s.write_batch batch with
    | (.ok _, s') => (s', [batch], [])
    | (.error _, s') => (s', [], [])
  | .read max =>
    match s.read_batch_step max with
    | some (.ok out, s') => (s', [], [out])
    | some (.error _, s') => (s', [], [])
    | none => (s, [], [])
  | .close => (s.close, [], [])

/-- Run a sequence of operations, accumulating the successful write and
read batches in order. -/
def runOps (s : BufState α) : List (BufOp α) → BufState α × List (List α) × List (List α)
  | [] => (s, [], [])
  | op :: rest =>
    let step := applyOp s op
    let tail := runOps step.1 rest
    (tail.1, step.2.1 ++ tail.2.1, step.2.2 ++ tail.2.2)

-- ===========================================================================
-- InMemoryStorage (src/crates/fraud_detection/src/adapters/in_memory_storage.rs)
-- ===========================================================================

/-- `InMemoryStorage`: a vector of pending transactions plus a capacity. -/
structure InMemoryStorage where
  inner : List PendingTransaction
  capacity : Nat
deriving DecidableEq, Repr

/-- `InMemoryStorage::new`. -/
def InMemoryStorage.new (capacity : Nat) : InMemoryStorage :=
  ⟨[], capacity⟩

/-- `InMemoryStorage::write_batch`: reject the whole batch with
`CapacityExceeded` when `current_count + batch_len > capacity`, otherwise
append every item. -/
def InMemoryStorage.write_batch (st : InMemoryStorage)
    (batch : List PendingTransaction) :
    Except StorageError Unit × InMemoryStorage :=
  if st.inner.length + batch.length > st.capacity then
    (.error (.CapacityExceeded st.capacity), st)
  else
    (.ok (), { st with inner := st.inner ++ batch })

-- ===========================================================================
-- Producer (src/crates/producer/src/lib.rs)
-- ===========================================================================

/-- `producer::LAST_NAMES`: the built-in last-name pool (10 entries). -/
def LAST_NAMES : List String :=
  ["Smith", "Johnson", "Williams", "Brown", "Jones", "Garcia", "Miller",
   "Davis", "Wilson", "Taylor"]

/-- `producer::ProducerConfig`. Durations are modelled in milliseconds. -/
structure ProducerConfig where
  n1_max : Nat
  poll_interval1 : Nat
  iterations : Option Nat
  seed : Option Nat
deriving DecidableEq, Repr

/-- `ProducerConfigBuilder::build`: reject `n1_max = 0` with `InvalidConfig`. -/
def ProducerConfig.build (n1_max poll_interval1 : Nat) (iterations : Option Nat)
    (seed : Option Nat) : Except ProducerError ProducerConfig :=
  if n1_max = 0 then
    .error (.InvalidConfig "n1_max must be >= 1")
  else
    .ok ⟨n1_max, poll_interval1, iterations, seed⟩

/-- `producer::Producer`: configuration plus owned RNG state. -/
structure Producer where
  config : ProducerConfig
  rng : Rng
deriving DecidableEq, Repr

/-- `Producer::new`. When `config.seed` is `Some(seed)` the RNG is seeded
deterministically from it; otherwise it is seeded from OS entropy, which
the embedding passes in explicitly as `osEntropy`. -/
def Producer.new (config : ProducerConfig) (osEntropy : Rng) : Producer :=
  let rng :=
    match config.seed with
    | some seed => seedFromU64 seed
    | none => osEntropy
  ⟨config, rng⟩

/-- Body of the loop in `Producer::generate_batch` for one transaction:
a 128-bit random id, an amount of `random_range(1..=1_000_000)` cents
divided by 100, and a last name indexed uniformly into `LAST_NAMES`
(the Rust `random_range(0..LAST_NAMES.len())` half-open draw is the
inclusive draw from `[0, len - 1]`). -/
def generateTransaction (r0 : Rng) : Transaction × Rng :=
  let idOut := rngNextU128 r0
  let centsOut := randomRange 1 1000000 idOut.2
  let amount : Rat := (centsOut.1 : Rat) / 100
  let idxOut := randomRange 0 (LAST_NAMES.length - 1) centsOut.2
  let last_name := (LAST_NAMES.get? idxOut.1).getD ""
  (⟨idOut.1, amount, last_name⟩, idxOut.2)

/-- The `for _ in 0..size` loop of `Producer::generate_batch`, generating
`n` transactions in order. -/
def generateTransactions : Nat → Rng → List Transaction × Rng
  | 0, r => ([], r)
  | n + 1, r =>
    let head := generateTransaction r
    let tail := generateTransactions n head.2
    (head.1 :: tail.1, tail.2)

/-- `Producer::generate_batch`: draw a size uniformly from `[1, n1_max]`,
then generate that many transactions. -/
def Producer.generate_batch (p : Producer) : List Transaction × Producer :=
  let sizeOut := randomRange 1 p.config.n1_max p.rng
  let txs := generateTransactions sizeOut.1 sizeOut.2
  (txs.1, { p with rng := txs.2 })

/-- The sequence of the first `k` batches emitted by successive
`generate_batch` calls on `p`. -/
def Producer.batchSeq : Nat → Producer → List (List Transaction)
  | 0, _ => []
  | k + 1, p =>
    let out := p.generate_batch
    out.1 :: Producer.batchSeq k out.2

/-- `Producer::produce_once`, generic over the injected `Buffer1` port:
`write` is the port's `write_batch` acting on port state `σ`. Buffer
errors are wrapped in `ProducerError::Buffer`. -/
def Producer.produce_once (write : List Transaction → σ → Except BufferError Unit × σ)
    (p : Producer) (s : σ) : Except ProducerError Unit × Producer × σ :=
  let out := p.generate_batch
  match write out.1 s with
  | (.error e, s') => (.error (.Buffer e), out.2, s')
  | (.ok _, s') => (.ok (), out.2, s')

/-- `Producer::run`, with an explicit `fuel` bound on the number of loop
iterations the embedding unrolls (`none` = the loop is still running
after `fuel` iterations). `count` is the local iteration counter, `0` at
entry. A `Closed` write stops the loop cleanly with `Ok`; any other
error is returned; reaching the configured iteration cap stops with `Ok`. -/
def Producer.run (write : List Transaction → σ → Except BufferError Unit × σ) :
    Nat → Producer → σ → Nat → Option (Except ProducerError Unit × Producer × σ)
  | 0, _, _, _ => none
  | fuel + 1, p, s, count =>
    match Producer.produce_once write p s with
    | (.error (.Buffer .Closed), p', s') => some (.ok (), p', s')
    | (.error e, p', s') => some (.error e, p', s')
    | (.ok _, p', s') =>
      let count' := count + 1
      match p'.config.iterations with
      | some max =>
        if max ≤ count' then some (.ok (), p', s')
        else Producer.run write fuel p' s' count'
      | none => Producer.run write fuel p' s' count'

-- ===========================================================================
-- Modelizer (src/crates/modelizer/src/lib.rs)
-- ===========================================================================

/-- The `domain::Model` port: a set of trait-method implementations over a
model-adapter state `σ`. `name` and `active_version` are `&self`
accessors in Rust; the embedding lets them observe and evolve adapter
state (interior mutability), which only strengthens the theorems proved
against arbitrary instances. -/
structure Model (σ : Type) where
  classify : Transaction → σ → Except ModelizerError Bool × σ
  name : σ → String × σ
  active_version : σ → String × σ
  switch_version : ModelVersion → σ → Except ModelizerError Unit × σ

/-- The `for tx in batch` loop of `Modelizer::infer`: classify each
transaction in order, threading model state; the first classification
error aborts the call (`?`). Each produced record carries the
pre-snapshotted `model_name` and `model_version`. -/
def inferLoop (M : Model σ) (model_name model_version : String) :
    List Transaction → σ → Except ModelizerError (List InferredTransaction) × σ
  | [], s => (.ok [], s)
  | tx :: rest, s =>
    match M.classify tx s with
    | (.error e, s') => (.error e, s')
    | (.ok predicted_fraud, s') =>
      match inferLoop M model_name model_version rest s' with
      | (.error e, s'') => (.error e, s'')
      | (.ok results, s'') =>
        (.ok (⟨tx, predicted_fraud, model_name, model_version⟩ :: results), s'')

/-- `Modelizer::infer`: snapshot `model.name()` and `model.active_version()`
once, before iterating the batch, then run the classification loop. -/
def Modelizer.infer (M : Model σ) (batch : List Transaction) (s : σ) :
    Except ModelizerError (List InferredTransaction) × σ :=
  let nameOut := M.name s
  let versionOut := M.active_version nameOut.2
  inferLoop M nameOut.1 versionOut.1 batch versionOut.2

/-- `Modelizer::switch_version`: delegate verbatim to the model adapter. -/
def Modelizer.switch_version (M : Model σ) (version : ModelVersion) (s : σ) :
    Except ModelizerError Unit × σ :=
  M.switch_version version s

-- ===========================================================================
-- Consumer (src/crates/consumer/src/lib.rs)
-- ===========================================================================

/-- `consumer::ConsumerConfig`. Durations in milliseconds. -/
structure ConsumerConfig where
  n2_max : Nat
  speed2 : Nat
  iterations : Option Nat
  seed : Option Nat
deriving DecidableEq, Repr

/-- `ConsumerConfigBuilder::build`: reject `n2_max = 0` with `InvalidConfig`. -/
def ConsumerConfig.build (n2_max speed2 : Nat) (iterations : Option Nat)
    (seed : Option Nat) : Except ConsumerError ConsumerConfig :=
  if n2_max = 0 then
    .error (.InvalidConfig "n2_max must be >= 1")
  else
    .ok ⟨n2_max, speed2, iterations, seed⟩

/-- `consumer::Consumer`: configuration plus owned RNG state. -/
structure Consumer where
  config : ConsumerConfig
  rng : Rng
deriving DecidableEq, Repr

/-- `Consumer::new`; as for Producer, OS entropy is passed in explicitly
and used only when `config.seed` is `None`. -/
def Consumer.new (config : ConsumerConfig) (osEntropy : Rng) : Consumer :=
  let rng :=
    match config.seed with
    | some seed => seedFromU64 seed
    | none => osEntropy
  ⟨config, rng⟩

/-- The four port implementations injected into `Consumer::consume_once`
(`B1: Buffer1Read`, `M: Modelizer`, `A: Alarm`, `B2: Buffer2`), as
state-transforming functions over a shared adapter state `σ`. -/
structure Ports (σ : Type) where
  read_batch : Nat → σ → Except BufferError (List Transaction) × σ
  infer : List Transaction → σ → Except ModelizerError (List InferredTransaction) × σ
  trigger : InferredTransaction → σ → Except AlarmError Unit × σ
  write_batch : List InferredTransaction → σ → Except BufferError Unit × σ

/-- The best-effort alarm loop of `Consumer::consume_once`:
`for tx in &inferred { if tx.predicted_fraud && let Err(e) = alarm.trigger(tx) { alarm_errors.push(e) } }`.
`acc` is the accumulated `alarm_errors` vector. -/
def alarmLoop (trigger : InferredTransaction → σ → Except AlarmError Unit × σ) :
    List InferredTransaction → List AlarmError → σ → List AlarmError × σ
  | [], acc, s => (acc, s)
  | tx :: rest, acc, s =>
    if tx.predicted_fraud then
      match trigger tx s with
      | (.error e, s') => alarmLoop trigger rest (acc ++ [e]) s'
      | (.ok _, s') => alarmLoop trigger rest acc s'
    else
      alarmLoop trigger rest acc s

/-- `Consumer::consume_once`: draw `n2` from `[1, n2_max]`, read up to `n2`
transactions from Buffer1, infer, run the best-effort alarm loop, write
the full enriched batch to Buffer2, and return the collected alarm
failures. Read, inference and write failures are surfaced as typed
`ConsumerError`s. -/
def Consumer.consume_once (P : Ports σ) (c : Consumer) (s : σ) :
    Except ConsumerError (List AlarmError) × Consumer × σ :=
  let n2Out := randomRange 1 c.config.n2_max c.rng
  let c' : Consumer := { c with rng := n2Out.2 }
  match P.read_batch n2Out.1 s with
  | (.error e, s1) => (.error (.Read e), c', s1)
  | (.ok batch, s1) =>
    match P.infer batch s1 with
    | (.error e, s2) => (.error (.Inference e), c', s2)
    | (.ok inferred, s2) =>
      let alarmOut := alarmLoop P.trigger inferred [] s2
      match P.write_batch inferred alarmOut.2 with
      | (.error e, s4) => (.error (.Write e), c', s4)
      | (.ok _, s4) => (.ok alarmOut.1, c', s4)

/-- `Consumer::run`, fuel-bounded like `Producer.run`. A `Read(Closed)`
from `consume_once` stops the loop cleanly with `Ok`; any other error is
returned; reaching the configured iteration cap stops with `Ok`. Alarm
failures in an `Ok` iteration are only logged. -/
def Consumer.run (P : Ports σ) :
    Nat → Consumer → σ → Nat → Option (Except ConsumerError Unit × Consumer × σ)
  | 0, _, _, _ => none
  | fuel + 1, c, s, count =>
    match Consumer.consume_once P c s with
    | (.error (.Read .Closed), c', s') => some (.ok (), c', s')
    | (.error e, c', s') => some (.error e, c', s')
    | (.ok _alarmErrs, c', s') =>
      let count' := count + 1
      match c'.config.iterations with
      | some max =>
        if max ≤ count' then some (.ok (), c', s')
        else Consumer.run P fuel c' s' count'
      | none => Consumer.run P fuel c' s' count'

/-- `Consumer::switch_model_version`: forward to the Modelizer port. -/
def Consumer.switch_model_version (M : Model σ) (version : ModelVersion) (s : σ) :
    Except ConsumerError Unit × σ :=
  match Modelizer.switch_version M version s with
  | (.error e, s') => (.error (.Inference e), s')
  | (.ok _, s') => (.ok (), s')

-- ===========================================================================
-- Port instantiations used by the claims (mirroring the repo's mock adapters)
-- ===========================================================================

/-- Adapter state for observing one `consume_once` call: the batch Buffer1
will deliver, a pure inference function, a pure per-record alarm outcome
(`some e` = `trigger` fails with `e`), plus two observation traces: every
record `trigger` was invoked on (in order), and the Buffer2 contents. -/
structure ConsumeWorld where
  batch : List Transaction
  inferFn : List Transaction → Except ModelizerError (List InferredTransaction)
  alarmFail : InferredTransaction → Option AlarmError
  alarmCalls : List InferredTransaction
  buf2 : List InferredTransaction

/-- Ports over `ConsumeWorld`: Buffer1 delivers `batch`, the modelizer
applies `inferFn`, the alarm records each invocation and fails according
to `alarmFail`, and Buffer2 appends and succeeds (like the repo's
`MockBuffer2`). -/
def tracePorts : Ports ConsumeWorld where
  read_batch _max w := (.ok w.batch, w)
  infer batch w := (w.inferFn batch, w)
  trigger tx w :=
    let w' := { w with alarmCalls := w.alarmCalls ++ [tx] }
    match w.alarmFail tx with
    | some e => (.error e, w')
    | none => (.ok (), w')
  write_batch batch w := (.ok (), { w with buf2 := w.buf2 ++ batch })

/-- Observable events on a model adapter, for stating in what order
`Modelizer::infer` touches the injected `Model`. -/
inductive MEvent where
  | nameRead
  | versionRead
  | classifyCall (tx : Transaction)
  | switchCall (version : ModelVersion)
deriving DecidableEq, Repr

/-- A model adapter whose state is its own event trace: `name` and
`active_version` return the fixed strings `nm` and `vs`, `classify`
returns `cf tx`, and every port method appends its event. -/
def eventModel (nm vs : String) (cf : Transaction → Except ModelizerError Bool) :
    Model (List MEvent) where
  classify tx tr := (cf tx, tr ++ [.classifyCall tx])
  name tr := (nm, tr ++ [.nameRead])
  active_version tr := (vs, tr ++ [.versionRead])
  switch_version v tr := (.ok (), tr ++ [.switchCall v])

/-- Ports wiring `consume_once` to two concrete `ConcurrentBuffer` states
(Buffer1 read side, Buffer2 write side) plus pure inference and alarm
functions. The Buffer1 read uses `read_batch_step`; its empty-and-open
case (where the source yields to the scheduler and retries) is mapped to
`Closed` and is unreachable under the non-empty-buffer hypotheses of the
theorems stated over these ports. -/
def bufPorts (inferFn : List Transaction → Except ModelizerError (List InferredTransaction))
    (alarmFail : InferredTransaction → Option AlarmError) :
    Ports (BufState Transaction × BufState InferredTransaction) where
  read_batch max s :=
    match s.1.read_batch_step max with
    | some (r, b1') => (r, (b1', s.2))
    | none => (.error .Closed, s)
  infer batch s := (inferFn batch, s)
  trigger tx s :=
    match alarmFail tx with
    | some e => (.error e, s)
    | none => (.ok (), s)
  write_batch batch s :=
    let out := s.2.write_batch batch
    (out.1, (s.1, out.2))

-- ===========================================================================
-- Concrete sample values (used by witnesses)
-- ===========================================================================

/-- A concrete transaction. -/
def tx0 : Transaction :=
  ⟨0, 1, "Smith"⟩

/-- A concrete fraudulent inferred transaction. -/
def itx0 : InferredTransaction :=
  ⟨tx0, true, "DEMO", "4"⟩

/-- A concrete pending transaction. -/
def pend0 : PendingTransaction :=
  ⟨itx0, false, none⟩

-- ===========================================================================
-- Claim theorems
-- ===========================================================================

/-- C7: for every state of `InMemoryStorage` and every batch, a write whose
size would exceed the capacity fails with `CapacityExceeded` carrying the
configured capacity and leaves the stored contents unchanged; otherwise
all batch items are appended and `Ok` is returned. -/
theorem storage_capacity_atomic (st : InMemoryStorage)
    (batch : List PendingTransaction) :
    (st.inner.length + batch.length > st.capacity →
      st.write_batch batch = (.error (.CapacityExceeded st.capacity), st)) ∧
    (st.inner.length + batch.length ≤ st.capacity →
      st.write_batch batch = (.ok (), { st with inner := st.inner ++ batch })) := by
  refine ⟨fun h => ?_, fun h => ?_⟩
  · unfold InMemoryStorage.write_batch
    rw [if_pos h]
  · unfold InMemoryStorage.write_batch
    rw [if_neg (by omega)]

theorem storage_capacity_atomic_witness :
    (InMemoryStorage.new 1).inner.length + 2 > 1 ∧
    (InMemoryStorage.new 1).write_batch [pend0, pend0] =
      (.error (.CapacityExceeded 1), InMemoryStorage.new 1) ∧
    (InMemoryStorage.new 1).write_batch [pend0] =
      (.ok (), { InMemoryStorage.new 1 with inner := [pend0] }) :=
  ⟨by decide,
   (storage_capacity_atomic (InMemoryStorage.new 1) [pend0, pend0]).1 (by decide),
   (storage_capacity_atomic (InMemoryStorage.new 1) [pend0]).2 (by decide)⟩

/-- C5: the concurrent buffer only transitions from open to closed:
`close` is idempotent and sets the flag, no read or write changes the
flag, a closed buffer rejects every write with `Closed` leaving the queue
unchanged, and a read on a closed buffer drains remaining data while
non-empty and fails with `Closed` once empty. -/
theorem concurrent_buffer_close_semantics :
    (∀ s : BufState Transaction, s.close.close = s.close) ∧
    (∀ s : BufState Transaction, s.close.closed = true) ∧
    (∀ (s : BufState Transaction) (batch : List Transaction),
        ((s.write_batch batch).2).closed = s.closed) ∧
    (∀ (s : BufState Transaction) (max : Nat) (r : Except BufferError (List Transaction))
        (s' : BufState Transaction),
        s.read_batch_step max = some (r, s') → s'.closed = s.closed) ∧
    (∀ (s : BufState Transaction) (batch : List Transaction), s.closed = true →
        s.write_batch batch = (.error .Closed, s)) ∧
    (∀ (s : BufState Transaction) (max : Nat), s.closed = true → s.data ≠ [] →
        s.read_batch_step max =
          some (.ok (s.data.take (Nat.min max s.data.length)),
                { s with data := s.data.drop (Nat.min max s.data.length) })) ∧
    (∀ (s : BufState Transaction) (max : Nat), s.closed = true → s.data = [] →
        s.read_batch_step max = some (.error .Closed, s)) := by
  refine ⟨fun s => rfl, fun s => rfl, fun s batch => ?_, fun s max r s' h => ?_,
    fun s batch h => ?_, fun s max hc hd => ?_, fun s max hc hd => ?_⟩
  · unfold BufState.write_batch
    split <;> rfl
  · unfold BufState.read_batch_step at h
    split at h
    · simp only [Option.some.injEq, Prod.mk.injEq, Except.error.injEq] at h
      rw [← h.2]
    · split at h
      · simp only [Option.some.injEq, Prod.mk.injEq, Except.error.injEq] at h
        rw [← h.2]
      · exact absurd h (by simp)
  · unfold BufState.write_batch
    rw [if_pos h]
  · unfold BufState.read_batch_step
    have : s.data.isEmpty = false := by
      cases hs : s.data with
      | nil => exact absurd hs hd
      | cons a l => rfl
    rw [this]
    rfl
  · unfold BufState.read_batch_step
    rw [hd]
    simp [hc]

theorem concurrent_buffer_close_semantics_witness :
    (BufState.mk [tx0] true : BufState Transaction).closed = true ∧
    (BufState.mk [tx0] true : BufState Transaction).write_batch [tx0] =
      (.error .Closed, BufState.mk [tx0] true) ∧
    (BufState.mk [tx0] true : BufState Transaction).read_batch_step 5 =
      some (.ok [tx0], BufState.mk [] true) ∧
    (BufState.mk [] true : BufState Transaction).read_batch_step 5 =
      some (.error .Closed, BufState.mk [] true) :=
  ⟨rfl,
   concurrent_buffer_close_semantics.2.2.2.2.1 (BufState.mk [tx0] true) [tx0] rfl,
   concurrent_buffer_close_semantics.2.2.2.2.2.1 (BufState.mk [tx0] true) 5 rfl
     (by simp),
   concurrent_buffer_close_semantics.2.2.2.2.2.2 (BufState.mk [] true) 5 rfl rfl⟩

/-- C8: two producers built from equal configurations whose seed is the
same `Some(seed)` emit identical batch sequences (sizes and full
transaction contents) from successive `generate_batch` calls, whatever
OS entropy each would otherwise have drawn. -/
theorem producer_seeded_determinism (cfg1 cfg2 : ProducerConfig) (e1 e2 : Rng)
    (seed : Nat) (hcfg : cfg1 = cfg2) (hseed : cfg1.seed = some seed) (k : Nat) :
    Producer.batchSeq k (Producer.new cfg1 e1) = Producer.batchSeq k (Producer.new cfg2 e2) ∧
    (Producer.batchSeq k (Producer.new cfg1 e1)).map List.length =
      (Producer.batchSeq k (Producer.new cfg2 e2)).map List.length := by
  subst hcfg
  have hnew : Producer.new cfg1 e1 = Producer.new cfg1 e2 := by
    unfold Producer.new
    rw [hseed]
  rw [hnew]
  exact ⟨rfl, rfl⟩

theorem producer_seeded_determinism_witness :
    Producer.batchSeq 2 (Producer.new ⟨3, 0, none, some 42⟩ ⟨1⟩) =
      Producer.batchSeq 2 (Producer.new ⟨3, 0, none, some 42⟩ ⟨2⟩) :=
  (producer_seeded_determinism ⟨3, 0, none, some 42⟩ ⟨3, 0, none, some 42⟩
    ⟨1⟩ ⟨2⟩ 42 rfl rfl 2).1

/-- One-step FIFO invariant: applying any single operation preserves the
balance between the data still queued, the successfully written batches
and the successfully read batches. -/
theorem applyOp_invariant (s : BufState α) (op : BufOp α) :
    (applyOp s op).2.2.flatten ++ (applyOp s op).1.data =
      s.data ++ (applyOp s op).2.1.flatten := by
  cases op with
  | write batch =>
    unfold applyOp BufState.write_batch
    by_cases h : s.closed <;> simp [h]
  | read max =>
    unfold applyOp BufState.read_batch_step
    by_cases h : s.data.isEmpty
    · by_cases hc : s.closed <;> simp [h, hc]
    · simp only [h, Bool.not_false, if_true, List.flatten_cons, List.flatten_nil,
        List.append_nil, List.nil_append]
      exact List.take_append_drop _ _
  | close =>
    simp [applyOp, BufState.close]

/-- Whole-history FIFO invariant for `runOps`, from an arbitrary start
state. -/
theorem runOps_invariant (ops : List (BufOp α)) (s : BufState α) :
    (runOps s ops).2.2.flatten ++ (runOps s ops).1.data =
      s.data ++ (runOps s ops).2.1.flatten := by
  induction ops generalizing s with
  | nil => simp [runOps]
  | cons op rest ih =>
    show ((applyOp s op).2.2 ++ (runOps (applyOp s op).1 rest).2.2).flatten ++
        (runOps (applyOp s op).1 rest).1.data =
      s.data ++ ((applyOp s op).2.1 ++ (runOps (applyOp s op).1 rest).2.1).flatten
    rw [List.flatten_append, List.flatten_append, List.append_assoc,
      ih (applyOp s op).1, ← List.append_assoc, applyOp_invariant,
      List.append_assoc]

/-- C4: over any operation history on a fresh concurrent buffer, the
concatenation of all successful reads followed by the remaining queue
equals the concatenation of all successful writes in write order — so
the read stream is a prefix of the write stream (FIFO); and every
successful `read_batch` with `max ≥ 1` drains exactly
`min(max, len) ≥ 1` items from the head of the queue. -/
theorem concurrent_buffer_fifo :
    (∀ ops : List (BufOp Transaction),
        (runOps (BufState.new Transaction) ops).2.2.flatten ++
            (runOps (BufState.new Transaction) ops).1.data =
          (runOps (BufState.new Transaction) ops).2.1.flatten ∧
        ∃ t, (runOps (BufState.new Transaction) ops).2.2.flatten ++ t =
          (runOps (BufState.new Transaction) ops).2.1.flatten) ∧
    (∀ (s : BufState Transaction) (max : Nat) (out : List Transaction)
        (s' : BufState Transaction), 1 ≤ max →
        s.read_batch_step max = some (.ok out, s') →
        out = s.data.take (Nat.min max s.data.length) ∧
        s'.data = s.data.drop (Nat.min max s.data.length) ∧
        out.length = Nat.min max s.data.length ∧
        1 ≤ Nat.min max s.data.length) := by
  constructor
  · intro ops
    have h := runOps_invariant ops (BufState.new Transaction)
    simp only [BufState.new, List.nil_append] at h
    exact ⟨h, ⟨(runOps (BufState.new Transaction) ops).1.data, h⟩⟩
  · intro s max out s' hmax h
    unfold BufState.read_batch_step at h
    by_cases hd : s.data.isEmpty
    · rw [hd] at h
      by_cases hc : s.closed <;> simp [hc] at h
    · simp only [hd, Bool.not_false, if_true, Option.some.injEq, Prod.mk.injEq,
        Except.ok.injEq] at h
      have hlen : 1 ≤ s.data.length := by
        cases hs : s.data with
        | nil => rw [hs] at hd; exact absurd rfl hd
        | cons a l => exact Nat.succ_le_succ (Nat.zero_le _)
      have hmin : 1 ≤ Nat.min max s.data.length := le_min hmax hlen
      refine ⟨h.1.symm, ?_, ?_, hmin⟩
      · rw [← h.2]
      · rw [← h.1, List.length_take]
        exact Nat.min_eq_left (Nat.min_le_right _ _)

theorem concurrent_buffer_fifo_witness :
    1 ≤ (1 : Nat) ∧
    (BufState.mk [tx0] false : BufState Transaction).read_batch_step 1 =
      some (.ok [tx0], BufState.mk [] false) ∧
    [tx0] = (BufState.mk [tx0] false : BufState Transaction).data.take
      (Nat.min 1 (BufState.mk [tx0] false : BufState Transaction).data.length) :=
  ⟨le_refl 1, rfl,
   (concurrent_buffer_fifo.2 (BufState.mk [tx0] false) 1 [tx0]
     (BufState.mk [] false) (le_refl 1) rfl).1⟩

/-- Indexing with a default into a list stays inside the list when the
index is in bounds. -/
theorem getD_mem_of_lt {α : Type} (l : List α) (i : Nat) (d : α) (h : i < l.length) :
    (l.get? i).getD d ∈ l := by
  rw [List.get?_eq_get h]
  exact List.get_mem l i h

/-- Every transaction produced by one `generateTransaction` step has an
amount of `k` cents over 100 for some `k ∈ [1, 1_000_000]`, and a last
name from the pool. -/
theorem generateTransaction_spec (r : Rng) :
    (∃ k : Nat, 1 ≤ k ∧ k ≤ 1000000 ∧
      (generateTransaction r).1.amount = (k : Rat) / 100) ∧
    (generateTransaction r).1.last_name ∈ LAST_NAMES := by
  constructor
  · refine ⟨(randomRange 1 1000000 (rngNextU128 r).2).1, ?_, ?_, rfl⟩
    · exact (randomRange_bounds 1 1000000 (rngNextU128 r).2 (by omega)).1
    · exact (randomRange_bounds 1 1000000 (rngNextU128 r).2 (by omega)).2
  · have hlen : LAST_NAMES.length = 10 := rfl
    have hidx := randomRange_bounds 0 (LAST_NAMES.length - 1)
      (randomRange 1 1000000 (rngNextU128 r).2).2 (by rw [hlen]; omega)
    exact getD_mem_of_lt LAST_NAMES _ "" (by omega)

/-- `generateTransactions n r` emits exactly `n` transactions, each
satisfying `generateTransaction_spec`. -/
theorem generateTransactions_spec (n : Nat) (r : Rng) :
    (generateTransactions n r).1.length = n ∧
    ∀ tx ∈ (generateTransactions n r).1,
      (∃ k : Nat, 1 ≤ k ∧ k ≤ 1000000 ∧ tx.amount = (k : Rat) / 100) ∧
      tx.last_name ∈ LAST_NAMES := by
  induction n generalizing r with
  | zero => exact ⟨rfl, fun tx h => absurd h (List.not_mem_nil tx)⟩
  | succ m ih =>
    refine ⟨?_, ?_⟩
    · show ((generateTransaction r).1 ::
        (generateTransactions m (generateTransaction r).2).1).length = m + 1
      rw [List.length_cons, (ih (generateTransaction r).2).1]
    · intro tx htx
      rcases List.mem_cons.mp htx with heq | hmem
      · rw [heq]
        exact generateTransaction_spec r
      · exact (ih (generateTransaction r).2).2 tx hmem

/-- `Producer.generate_batch` unfolded into its components. Stated as a
rewrite-level equation so later proofs never force the kernel to reduce
`generateTransactions` applied to a symbolic RNG draw. -/
theorem generate_batch_eq (p : Producer) :
    p.generate_batch =
      ((generateTransactions (randomRange 1 p.config.n1_max p.rng).1
          (randomRange 1 p.config.n1_max p.rng).2).1,
       { p with rng := (generateTransactions (randomRange 1 p.config.n1_max p.rng).1
          (randomRange 1 p.config.n1_max p.rng).2).2 }) := by
  simp only [Producer.generate_batch]

/-- Pair projection at the variable level. Instantiating this at large
closed terms keeps kernel checks to type-correct substitution, with no
reduction of the arguments. -/
theorem prodFst {α β : Type} (a : α) (b : β) : (Prod.mk a b).1 = a := rfl

/-- Pair projection at the variable level (second component). -/
theorem prodSnd {α β : Type} (a : α) (b : β) : (Prod.mk a b).2 = b := rfl

/-- First component of `generate_batch_eq`. -/
theorem generate_batch_fst (p : Producer) :
    (p.generate_batch).1 =
      (generateTransactions (randomRange 1 p.config.n1_max p.rng).1
        (randomRange 1 p.config.n1_max p.rng).2).1 :=
  (congrArg Prod.fst (generate_batch_eq p)).trans (prodFst _ _)

/-- C9: every batch from `Producer::generate_batch` has between 1 and
`n1_max` transactions (given the validated `n1_max ≥ 1`); every
transaction's amount is `k / 100` for some integer `k ∈ [1, 1_000_000]`,
hence lies in `[0.01, 10_000.00]`; and every last name is a non-empty
string from the built-in pool of exactly 10 distinct names. -/
theorem generate_batch_bounds (p : Producer) (h : 1 ≤ p.config.n1_max) :
    1 ≤ (p.generate_batch).1.length ∧
    (p.generate_batch).1.length ≤ p.config.n1_max ∧
    (∀ tx ∈ (p.generate_batch).1,
        (∃ k : Nat, 1 ≤ k ∧ k ≤ 1000000 ∧ tx.amount = (k : Rat) / 100) ∧
        (1 : Rat) / 100 ≤ tx.amount ∧ tx.amount ≤ 10000 ∧
        tx.last_name ∈ LAST_NAMES ∧ tx.last_name ≠ "") ∧
    LAST_NAMES.length = 10 ∧ LAST_NAMES.Nodup ∧
    (∀ nm ∈ LAST_NAMES, nm ≠ "") := by
  have hpool : ∀ nm ∈ LAST_NAMES, nm ≠ "" := by decide
  have hsize := randomRange_bounds 1 p.config.n1_max p.rng h
  have hspec := generateTransactions_spec
    (randomRange 1 p.config.n1_max p.rng).1 (randomRange 1 p.config.n1_max p.rng).2
  have hlen : (p.generate_batch).1.length = (randomRange 1 p.config.n1_max p.rng).1 :=
    (congrArg List.length (generate_batch_fst p)).trans hspec.1
  refine ⟨hsize.1.trans_eq hlen.symm, hlen.trans_le hsize.2, ?_, rfl, by decide, hpool⟩
  intro tx htx
  have htx' : tx ∈ (generateTransactions (randomRange 1 p.config.n1_max p.rng).1
      (randomRange 1 p.config.n1_max p.rng).2).1 := generate_batch_fst p ▸ htx
  obtain ⟨⟨k, hk1, hk2, hka⟩, hname⟩ := hspec.2 tx htx'
  have hcast1 : (1 : Rat) ≤ (k : Rat) := by exact_mod_cast hk1
  have hcast2 : (k : Rat) ≤ 1000000 := by exact_mod_cast hk2
  refine ⟨⟨k, hk1, hk2, hka⟩, ?_, ?_, hname, hpool tx.last_name hname⟩
  · linarith
  · linarith

theorem generate_batch_bounds_witness :
    1 ≤ (Producer.mk ⟨1, 0, none, some 7⟩ (seedFromU64 7)).config.n1_max ∧
    1 ≤ ((Producer.mk ⟨1, 0, none, some 7⟩ (seedFromU64 7)).generate_batch).1.length ∧
    ((Producer.mk ⟨1, 0, none, some 7⟩ (seedFromU64 7)).generate_batch).1.length ≤
      (Producer.mk ⟨1, 0, none, some 7⟩ (seedFromU64 7)).config.n1_max :=
  ⟨by decide,
   (generate_batch_bounds (Producer.mk ⟨1, 0, none, some 7⟩ (seedFromU64 7))
     (by decide)).1,
   (generate_batch_bounds (Producer.mk ⟨1, 0, none, some 7⟩ (seedFromU64 7))
     (by decide)).2.1⟩

-- ===========================================================================
-- Modelizer claims (C2, C3)
-- ===========================================================================

/-- Unfolding equation for the cons case of `inferLoop`, stated at variable
arguments. -/
theorem inferLoop_cons (σ : Type) (M : Model σ) (mn mv : String)
    (tx : Transaction) (rest : List Transaction) (s : σ) :
    inferLoop M mn mv (tx :: rest) s =
      match M.classify tx s with
      | (.error e, s') => (.error e, s')
      | (.ok predicted_fraud, s') =>
        match inferLoop M mn mv rest s' with
        | (.error e, s'') => (.error e, s'')
        | (.ok results, s'') =>
          (.ok (⟨tx, predicted_fraud, mn, mv⟩ :: results), s'') := rfl

/-- If every `classify` call succeeds, `inferLoop` succeeds with one output
per input, wrapping the inputs in order. -/
theorem inferLoop_ok (σ : Type) (M : Model σ) (mn mv : String)
    (hall : ∀ tx t, ((M.classify tx t).1).isOk = true)
    (batch : List Transaction) : ∀ s : σ,
    ∃ results s', inferLoop M mn mv batch s = (.ok results, s') ∧
      results.length = batch.length ∧
      ∀ i : Nat, (results[i]?).map InferredTransaction.transaction = batch[i]? := by
  induction batch with
  | nil =>
    intro s
    exact ⟨[], s, rfl, rfl, fun i => by cases i <;> rfl⟩
  | cons tx rest ih =>
    intro s
    have hc := hall tx s
    rcases hcl : M.classify tx s with ⟨cr, s1⟩
    rw [hcl] at hc
    cases cr with
    | error e => simp [Except.isOk, Except.toBool] at hc
    | ok b =>
      obtain ⟨results, s', heq, hlen, hidx⟩ := ih s1
      refine ⟨⟨tx, b, mn, mv⟩ :: results, s', ?_, ?_, ?_⟩
      · rw [inferLoop_cons, hcl]
        dsimp only
        rw [heq]
      · simp [hlen]
      · intro i
        cases i with
        | zero => simp
        | succ j =>
          simp only [List.getElem?_cons_succ]
          exact hidx j

/-- C3: on a batch where every `model.classify` call succeeds,
`Modelizer::infer` returns `Ok` with exactly one `InferredTransaction`
per input transaction, and the i-th output wraps the i-th input. -/
theorem infer_count_and_order (σ : Type) (M : Model σ) (batch : List Transaction)
    (s : σ) (hall : ∀ tx t, ((M.classify tx t).1).isOk = true) :
    ∃ results s', Modelizer.infer M batch s = (.ok results, s') ∧
      results.length = batch.length ∧
      ∀ i : Nat, (results[i]?).map InferredTransaction.transaction = batch[i]? := by
  obtain ⟨results, s', heq, hlen, hidx⟩ :=
    inferLoop_ok σ M (M.name s).1 (M.active_version (M.name s).2).1 hall batch
      (M.active_version (M.name s).2).2
  exact ⟨results, s', heq, hlen, hidx⟩

/-- A concrete constant model over trivial state: always classifies as
fraud, never fails, fixed name and version. -/
def constModel : Model Unit where
  classify _tx s := (.ok true, s)
  name s := ("DEMO", s)
  active_version s := ("4", s)
  switch_version _v s := (.ok (), s)

theorem infer_count_and_order_witness :
    ∃ results s', Modelizer.infer constModel [tx0] () = (.ok results, s') ∧
      results.length = [tx0].length ∧
      ∀ i : Nat, (results[i]?).map InferredTransaction.transaction = [tx0][i]? :=
  infer_count_and_order Unit constModel [tx0] () (fun _ _ => rfl)

/-- All records produced by `inferLoop` carry the snapshotted name and
version strings, whatever state changes `classify` performs. -/
theorem inferLoop_fields (σ : Type) (M : Model σ) (mn mv : String)
    (batch : List Transaction) : ∀ (s : σ) results s',
    inferLoop M mn mv batch s = (.ok results, s') →
    ∀ r ∈ results, r.model_name = mn ∧ r.model_version = mv := by
  induction batch with
  | nil =>
    intro s results s' heq r hr
    simp only [inferLoop, Prod.mk.injEq, Except.ok.injEq] at heq
    rw [← heq.1] at hr
    exact absurd hr (List.not_mem_nil r)
  | cons tx rest ih =>
    intro s results s' heq r hr
    rw [inferLoop_cons] at heq
    cases hcl : M.classify tx s with
    | mk cr s1 =>
      rw [hcl] at heq
      cases cr with
      | error e =>
        dsimp only at heq
        simp at heq
      | ok b =>
        dsimp only at heq
        have hpair : inferLoop M mn mv rest s1 =
            ((inferLoop M mn mv rest s1).1, (inferLoop M mn mv rest s1).2) := rfl
        rw [hpair] at heq
        cases hrc : (inferLoop M mn mv rest s1).1 with
        | error e2 =>
          rw [hrc] at heq
          dsimp only at heq
          simp at heq
        | ok results0 =>
          rw [hrc] at heq
          dsimp only at heq
          simp only [Prod.mk.injEq, Except.ok.injEq] at heq
          rw [← heq.1] at hr
          rcases List.mem_cons.mp hr with hr0 | hr1
          · rw [hr0]; exact ⟨rfl, rfl⟩
          · have hrec : inferLoop M mn mv rest s1 =
                (.ok results0, (inferLoop M mn mv rest s1).2) := by
              rw [hpair, hrc]
            exact ih s1 results0 (inferLoop M mn mv rest s1).2 hrec r hr1

/-- `classify` on the event-trace model, at variable arguments. -/
theorem eventModel_classify (nm vs : String)
    (cf : Transaction → Except ModelizerError Bool) (tx : Transaction)
    (tr : List MEvent) :
    (eventModel nm vs cf).classify tx tr =
      (cf tx, tr ++ [MEvent.classifyCall tx]) := rfl

/-- The state threaded through `inferLoop` over the event-trace model
only grows by classify events. -/
theorem inferLoop_trace (nm vs : String)
    (cf : Transaction → Except ModelizerError Bool) (mn mv : String)
    (batch : List Transaction) : ∀ tr : List MEvent,
    ∃ rest, (inferLoop (eventModel nm vs cf) mn mv batch tr).2 = tr ++ rest ∧
      ∀ e ∈ rest, ∃ tx, e = MEvent.classifyCall tx := by
  induction batch with
  | nil =>
    intro tr
    refine ⟨[], by simp [inferLoop], fun e he => absurd he (List.not_mem_nil e)⟩
  | cons tx rest ih =>
    intro tr
    obtain ⟨rest', hrest', hall'⟩ := ih (tr ++ [MEvent.classifyCall tx])
    cases hq : inferLoop (eventModel nm vs cf) mn mv (tx :: rest) tr with
    | mk rr tr2 =>
      rw [inferLoop_cons, eventModel_classify] at hq
      cases hcf : cf tx with
      | error e =>
        rw [hcf] at hq
        dsimp only at hq
        simp only [Prod.mk.injEq] at hq
        refine ⟨[MEvent.classifyCall tx], ?_, ?_⟩
        · dsimp only
          rw [← hq.2]
        · intro ev hev
          rw [List.mem_singleton.mp hev]
          exact ⟨tx, rfl⟩
      | ok b =>
        rw [hcf] at hq
        dsimp only at hq
        have hpair : inferLoop (eventModel nm vs cf) mn mv rest
            (tr ++ [MEvent.classifyCall tx]) =
            ((inferLoop (eventModel nm vs cf) mn mv rest
              (tr ++ [MEvent.classifyCall tx])).1,
             (inferLoop (eventModel nm vs cf) mn mv rest
              (tr ++ [MEvent.classifyCall tx])).2) := rfl
        rw [hpair] at hq
        refine ⟨MEvent.classifyCall tx :: rest', ?_, ?_⟩
        · dsimp only
          cases hrc : (inferLoop (eventModel nm vs cf) mn mv rest
              (tr ++ [MEvent.classifyCall tx])).1 with
          | error e2 =>
            rw [hrc] at hq
            dsimp only at hq
            simp only [Prod.mk.injEq] at hq
            rw [← hq.2, hrest', List.append_assoc]
            rfl
          | ok results0 =>
            rw [hrc] at hq
            dsimp only at hq
            simp only [Prod.mk.injEq] at hq
            rw [← hq.2, hrest', List.append_assoc]
            rfl
        · intro ev hev
          rcases List.mem_cons.mp hev with h0 | h1
          · exact ⟨tx, h0⟩
          · exact hall' ev h1

/-- C2: `Modelizer::infer` reads `model.name()` and
`model.active_version()` exactly once each, before any classify call —
on the event-trace model the call's trace is the prior trace, then the
name read, then the version read, then only classify events — and every
record of a successful call carries that start-of-call snapshot, even
when `classify` mutates the model state (which subsumes a version switch
between the classify calls of the batch). -/
theorem infer_version_snapshot :
    (∀ (σ : Type) (M : Model σ) (batch : List Transaction) (s : σ) results s',
        Modelizer.infer M batch s = (.ok results, s') →
        ∀ r ∈ results,
          r.model_name = (M.name s).1 ∧
          r.model_version = (M.active_version (M.name s).2).1) ∧
    (∀ (nm vs : String) (cf : Transaction → Except ModelizerError Bool)
        (batch : List Transaction) (tr : List MEvent),
        ∃ rest,
          (Modelizer.infer (eventModel nm vs cf) batch tr).2 =
            tr ++ MEvent.nameRead :: MEvent.versionRead :: rest ∧
          ∀ e ∈ rest, ∃ tx, e = MEvent.classifyCall tx) := by
  constructor
  · intro σ M batch s results s' heq r hr
    exact inferLoop_fields σ M (M.name s).1 (M.active_version (M.name s).2).1
      batch (M.active_version (M.name s).2).2 results s' heq r hr
  · intro nm vs cf batch tr
    obtain ⟨rest, hrest, hall⟩ :=
      inferLoop_trace nm vs cf nm vs batch
        ((tr ++ [MEvent.nameRead]) ++ [MEvent.versionRead])
    refine ⟨rest, ?_, hall⟩
    have hstep : (Modelizer.infer (eventModel nm vs cf) batch tr).2 =
        (inferLoop (eventModel nm vs cf) nm vs batch
          ((tr ++ [MEvent.nameRead]) ++ [MEvent.versionRead])).2 := rfl
    rw [hstep, hrest, List.append_assoc, List.append_assoc]
    rfl

theorem infer_version_snapshot_witness :
    Modelizer.infer constModel [tx0] () = (.ok [⟨tx0, true, "DEMO", "4"⟩], ()) ∧
    itx0.model_version = (constModel.active_version (constModel.name ()).2).1 :=
  ⟨rfl,
   (infer_version_snapshot.1 Unit constModel [tx0] () [⟨tx0, true, "DEMO", "4"⟩] ()
     rfl itx0 (by simp [itx0])).2⟩

-- ===========================================================================
-- Consumer claims (C1)
-- ===========================================================================

/-- `read_batch` on the trace ports, at variable arguments. -/
theorem tracePorts_read (max : Nat) (w : ConsumeWorld) :
    tracePorts.read_batch max w = (.ok w.batch, w) := rfl

/-- `infer` on the trace ports, at variable arguments. -/
theorem tracePorts_infer (batch : List Transaction) (w : ConsumeWorld) :
    tracePorts.infer batch w = (w.inferFn batch, w) := rfl

/-- `write_batch` on the trace ports, at variable arguments. -/
theorem tracePorts_write (batch : List InferredTransaction) (w : ConsumeWorld) :
    tracePorts.write_batch batch w = (.ok (), { w with buf2 := w.buf2 ++ batch }) := rfl

/-- `trigger` on the trace ports, at variable arguments. -/
theorem tracePorts_trigger (tx : InferredTransaction) (w : ConsumeWorld) :
    tracePorts.trigger tx w =
      match w.alarmFail tx with
      | some e => (.error e, { w with alarmCalls := w.alarmCalls ++ [tx] })
      | none => (.ok (), { w with alarmCalls := w.alarmCalls ++ [tx] }) := rfl

/-- Unfolding equation for the cons case of `alarmLoop`. -/
theorem alarmLoop_cons (trigger : InferredTransaction → σ → Except AlarmError Unit × σ)
    (tx : InferredTransaction) (rest : List InferredTransaction)
    (acc : List AlarmError) (s : σ) :
    alarmLoop trigger (tx :: rest) acc s =
      if tx.predicted_fraud then
        match trigger tx s with
        | (.error e, s') => alarmLoop trigger rest (acc ++ [e]) s'
        | (.ok _, s') => alarmLoop trigger rest acc s'
      else alarmLoop trigger rest acc s := rfl

/-- The alarm loop over the trace ports: collected errors are the
filter-map of the per-record failure function over the fraudulent
records, and the invocation trace grows by exactly the fraudulent
records, in order. -/
theorem alarmLoop_tracePorts (inferred : List InferredTransaction) :
    ∀ (acc : List AlarmError) (w : ConsumeWorld),
    alarmLoop tracePorts.trigger inferred acc w =
      (acc ++ (inferred.filter (fun tx => tx.predicted_fraud)).filterMap w.alarmFail,
       { w with alarmCalls :=
          w.alarmCalls ++ inferred.filter (fun tx => tx.predicted_fraud) }) := by
  induction inferred with
  | nil =>
    intro acc w
    simp [alarmLoop]
  | cons tx rest ih =>
    intro acc w
    rw [alarmLoop_cons]
    by_cases hf : tx.predicted_fraud = true
    · rw [if_pos hf, tracePorts_trigger]
      cases haf : w.alarmFail tx with
      | some e =>
        dsimp only
        rw [ih]
        simp [List.filter_cons, List.filterMap_cons, hf, haf, List.append_assoc]
      | none =>
        dsimp only
        rw [ih]
        simp [List.filter_cons, List.filterMap_cons, hf, haf, List.append_assoc]
    · rw [if_neg hf, ih]
      have hf' : tx.predicted_fraud = false := by
        cases hb : tx.predicted_fraud
        · rfl
        · exact absurd hb hf
      simp [List.filter_cons, hf']

/-- The number of collected failures equals the number of records on
which the failure function fires. -/
theorem filterMap_length_eq (l : List InferredTransaction)
    (f : InferredTransaction → Option AlarmError) :
    (l.filterMap f).length = (l.filter (fun tx => (f tx).isSome)).length := by
  induction l with
  | nil => rfl
  | cons a l ih =>
    cases hf : f a with
    | none => simp [List.filterMap_cons, List.filter_cons, hf, ih]
    | some e => simp [List.filterMap_cons, List.filter_cons, hf, ih]

/-- C1: when the Buffer1 read and `modelizer.infer` succeed,
`Consumer::consume_once` invokes `alarm.trigger` exactly once per
fraudulent record (the invocation trace grows by exactly the fraudulent
records, in order, and never by a non-fraudulent one), collects rather
than propagates every trigger failure, writes the full enriched batch
(failed-alarm records included) to Buffer2, and returns `Ok` with a list
whose length is the number of failing trigger invocations. -/
theorem consume_once_best_effort_alarms (c : Consumer) (w : ConsumeWorld)
    (inferred : List InferredTransaction)
    (hinfer : w.inferFn w.batch = .ok inferred) :
    Consumer.consume_once tracePorts c w =
      (.ok ((inferred.filter (fun tx => tx.predicted_fraud)).filterMap w.alarmFail),
       { c with rng := (randomRange 1 c.config.n2_max c.rng).2 },
       { w with
         alarmCalls := w.alarmCalls ++ inferred.filter (fun tx => tx.predicted_fraud),
         buf2 := w.buf2 ++ inferred }) ∧
    ((inferred.filter (fun tx => tx.predicted_fraud)).filterMap w.alarmFail).length =
      ((inferred.filter (fun tx => tx.predicted_fraud)).filter
        (fun tx => (w.alarmFail tx).isSome)).length := by
  constructor
  · simp only [Consumer.consume_once, tracePorts_read]
    rw [tracePorts_infer, hinfer]
    dsimp only
    rw [alarmLoop_tracePorts]
    dsimp only
    rw [tracePorts_write]
    dsimp only
    simp
  · exact filterMap_length_eq _ _

/-- A concrete consumer for witnesses. -/
def c0 : Consumer :=
  ⟨⟨1, 0, none, some 1⟩, seedFromU64 1⟩

/-- A concrete trace world: one transaction in Buffer1, an inference
function flagging everything as fraud, and an alarm that always fails. -/
def w0 : ConsumeWorld :=
  ⟨[tx0], fun b => .ok (b.map fun t => ⟨t, true, "DEMO", "4"⟩),
   fun _ => some (.DeliveryFailed "down"), [], []⟩

theorem consume_once_best_effort_alarms_witness :
    Consumer.consume_once tracePorts c0 w0 =
      (.ok (([itx0].filter (fun tx => tx.predicted_fraud)).filterMap w0.alarmFail),
       { c0 with rng := (randomRange 1 c0.config.n2_max c0.rng).2 },
       { w0 with
         alarmCalls := w0.alarmCalls ++ [itx0].filter (fun tx => tx.predicted_fraud),
         buf2 := w0.buf2 ++ [itx0] }) ∧
    (([itx0].filter (fun tx => tx.predicted_fraud)).filterMap w0.alarmFail).length =
      (([itx0].filter (fun tx => tx.predicted_fraud)).filter
        (fun tx => (w0.alarmFail tx).isSome)).length :=
  consume_once_best_effort_alarms c0 w0 [itx0] rfl

-- ===========================================================================
-- Consumer claims (C10)
-- ===========================================================================

/-- `read_batch` on the buffer-backed ports, at variable arguments. -/
theorem bufPorts_read
    (inferFn : List Transaction → Except ModelizerError (List InferredTransaction))
    (alarmFail : InferredTransaction → Option AlarmError) (max : Nat)
    (b1 : BufState Transaction) (b2 : BufState InferredTransaction) :
    (bufPorts inferFn alarmFail).read_batch max (b1, b2) =
      match b1.read_batch_step max with
      | some (r, b1') => (r, (b1', b2))
      | none => (.error .Closed, (b1, b2)) := rfl

/-- `infer` on the buffer-backed ports, at variable arguments. -/
theorem bufPorts_infer
    (inferFn : List Transaction → Except ModelizerError (List InferredTransaction))
    (alarmFail : InferredTransaction → Option AlarmError)
    (batch : List Transaction)
    (s : BufState Transaction × BufState InferredTransaction) :
    (bufPorts inferFn alarmFail).infer batch s = (inferFn batch, s) := rfl

/-- `write_batch` on the buffer-backed ports, at variable arguments. -/
theorem bufPorts_write
    (inferFn : List Transaction → Except ModelizerError (List InferredTransaction))
    (alarmFail : InferredTransaction → Option AlarmError)
    (batch : List InferredTransaction)
    (b1 : BufState Transaction) (b2 : BufState InferredTransaction) :
    (bufPorts inferFn alarmFail).write_batch batch (b1, b2) =
      ((b2.write_batch batch).1, (b1, (b2.write_batch batch).2)) := rfl

/-- The buffer-backed alarm trigger never changes the buffer states, so
the alarm loop returns its input state unchanged. -/
theorem alarmLoop_bufPorts_snd
    (inferFn : List Transaction → Except ModelizerError (List InferredTransaction))
    (alarmFail : InferredTransaction → Option AlarmError)
    (l : List InferredTransaction) :
    ∀ (acc : List AlarmError) (s : BufState Transaction × BufState InferredTransaction),
    (alarmLoop (bufPorts inferFn alarmFail).trigger l acc s).2 = s := by
  induction l with
  | nil => intro acc s; rfl
  | cons tx rest ih =>
    intro acc s
    rw [alarmLoop_cons]
    by_cases hf : tx.predicted_fraud = true
    · rw [if_pos hf]
      have htr : (bufPorts inferFn alarmFail).trigger tx s =
          (match alarmFail tx with
           | some e => (.error e, s)
           | none => (.ok (), s)) := rfl
      rw [htr]
      cases alarmFail tx with
      | some e => dsimp only; exact ih _ _
      | none => dsimp only; exact ih _ _
    · rw [if_neg hf]
      exact ih _ _

/-- A successful non-empty read, at the equation level. -/
theorem read_batch_step_nonempty (s : BufState α) (max : Nat)
    (h : s.data.isEmpty = false) :
    s.read_batch_step max =
      some (.ok (s.data.take (Nat.min max s.data.length)),
            { s with data := s.data.drop (Nat.min max s.data.length) }) := by
  unfold BufState.read_batch_step
  rw [h]
  rfl

/-- A write to a closed buffer fails and leaves it unchanged, at the
equation level. -/
theorem write_batch_closed (s : BufState α) (batch : List α) (h : s.closed = true) :
    s.write_batch batch = (.error .Closed, s) := by
  unfold BufState.write_batch
  rw [h]
  rfl

/-- C10: when `Consumer::consume_once` drains a non-empty batch from
Buffer1 and then `modelizer.infer` or the Buffer2 write fails, the call
returns the typed error while the drained transactions are gone from
Buffer1 (not re-queued) and Buffer2 is unchanged (nothing written): the
non-empty in-flight batch is lost. -/
theorem consume_once_inflight_loss (c : Consumer) (b1 : BufState Transaction)
    (b2 : BufState InferredTransaction)
    (inferFn : List Transaction → Except ModelizerError (List InferredTransaction))
    (alarmFail : InferredTransaction → Option AlarmError)
    (hne : b1.data.isEmpty = false) (hmax : 1 ≤ c.config.n2_max) :
    1 ≤ Nat.min (randomRange 1 c.config.n2_max c.rng).1 b1.data.length ∧
    (∀ e, inferFn (b1.data.take
        (Nat.min (randomRange 1 c.config.n2_max c.rng).1 b1.data.length)) = .error e →
      Consumer.consume_once (bufPorts inferFn alarmFail) c (b1, b2) =
        (.error (.Inference e),
         { c with rng := (randomRange 1 c.config.n2_max c.rng).2 },
         ({ b1 with data := b1.data.drop (Nat.min
             (randomRange 1 c.config.n2_max c.rng).1 b1.data.length) }, b2))) ∧
    (∀ inferred, inferFn (b1.data.take
        (Nat.min (randomRange 1 c.config.n2_max c.rng).1 b1.data.length)) = .ok inferred →
      b2.closed = true →
      Consumer.consume_once (bufPorts inferFn alarmFail) c (b1, b2) =
        (.error (.Write .Closed),
         { c with rng := (randomRange 1 c.config.n2_max c.rng).2 },
         ({ b1 with data := b1.data.drop (Nat.min
             (randomRange 1 c.config.n2_max c.rng).1 b1.data.length) }, b2))) := by
  have hlen : 1 ≤ b1.data.length := by
    cases hd : b1.data with
    | nil => rw [hd] at hne; simp at hne
    | cons a l => exact Nat.succ_le_succ (Nat.zero_le _)
  have hn2 := (randomRange_bounds 1 c.config.n2_max c.rng hmax).1
  refine ⟨le_min hn2 hlen, ?_, ?_⟩
  · intro e he
    simp only [Consumer.consume_once, bufPorts_read]
    rw [read_batch_step_nonempty b1 _ hne]
    dsimp only
    rw [bufPorts_infer, he]
  · intro inferred hi hcl
    simp only [Consumer.consume_once, bufPorts_read]
    rw [read_batch_step_nonempty b1 _ hne]
    dsimp only
    rw [bufPorts_infer, hi]
    dsimp only
    rw [alarmLoop_bufPorts_snd, bufPorts_write, write_batch_closed b2 inferred hcl]

/-- A concrete Buffer1 state holding one transaction, for the witness. -/
def b1w : BufState Transaction :=
  ⟨[tx0], false⟩

/-- A concrete open, empty Buffer2 state, for the witness. -/
def b2w : BufState InferredTransaction :=
  ⟨[], false⟩

theorem consume_once_inflight_loss_witness :
    1 ≤ Nat.min (randomRange 1 c0.config.n2_max c0.rng).1 b1w.data.length ∧
    Consumer.consume_once
        (bufPorts (fun _b => .error (.InferenceFailed "boom")) (fun _tx => none))
        c0 (b1w, b2w) =
      (.error (.Inference (.InferenceFailed "boom")),
       { c0 with rng := (randomRange 1 c0.config.n2_max c0.rng).2 },
       ({ b1w with data := b1w.data.drop (Nat.min
           (randomRange 1 c0.config.n2_max c0.rng).1 b1w.data.length) }, b2w)) :=
  ⟨(consume_once_inflight_loss c0 b1w b2w
      (fun _b => .error (.InferenceFailed "boom")) (fun _tx => none) rfl (by decide)).1,
   (consume_once_inflight_loss c0 b1w b2w
      (fun _b => .error (.InferenceFailed "boom")) (fun _tx => none) rfl (by decide)).2.1
     (.InferenceFailed "boom") rfl⟩

-- ===========================================================================
-- Run-loop claims (C6)
-- ===========================================================================

/-- One unrolling of `Producer.run`, at variable arguments. -/
theorem producer_run_succ_eq
    (write : List Transaction → σ → Except BufferError Unit × σ)
    (fuel : Nat) (p : Producer) (s : σ) (count : Nat) :
    Producer.run write (fuel + 1) p s count =
      match Producer.produce_once write p s with
      | (.error (.Buffer .Closed), p', s') => some (.ok (), p', s')
      | (.error e, p', s') => some (.error e, p', s')
      | (.ok _, p', s') =>
        match p'.config.iterations with
        | some max =>
          if max ≤ count + 1 then some (.ok (), p', s')
          else Producer.run write fuel p' s' (count + 1)
        | none => Producer.run write fuel p' s' (count + 1) := rfl

/-- One unrolling of `Consumer.run`, at variable arguments. -/
theorem consumer_run_succ_eq (P : Ports σ)
    (fuel : Nat) (c : Consumer) (s : σ) (count : Nat) :
    Consumer.run P (fuel + 1) c s count =
      match Consumer.consume_once P c s with
      | (.error (.Read .Closed), c', s') => some (.ok (), c', s')
      | (.error e, c', s') => some (.error e, c', s')
      | (.ok _, c', s') =>
        match c'.config.iterations with
        | some max =>
          if max ≤ count + 1 then some (.ok (), c', s')
          else Consumer.run P fuel c' s' (count + 1)
        | none => Consumer.run P fuel c' s' (count + 1) := rfl

/-- C6: a stage's `run` loop returns `Ok(())` exactly when its input-side
buffer operation fails with `Closed` (Producer: the Buffer1 write;
Consumer: the Buffer1 read) or the configured iteration cap is reached,
and every other failure of the loop body is returned as the typed error
(so a returned error is never the input-side `Closed`). -/
theorem run_termination_taxonomy :
    (∀ (σ : Type) (write : List Transaction → σ → Except BufferError Unit × σ)
        (fuel : Nat) (p : Producer) (s : σ) (count : Nat) (p' : Producer) (s' : σ),
        Producer.produce_once write p s = (.error (.Buffer .Closed), p', s') →
        Producer.run write (fuel + 1) p s count = some (.ok (), p', s')) ∧
    (∀ (σ : Type) (write : List Transaction → σ → Except BufferError Unit × σ)
        (fuel : Nat) (p : Producer) (s : σ) (count : Nat)
        (e : ProducerError) (p' : Producer) (s' : σ),
        Producer.produce_once write p s = (.error e, p', s') →
        e ≠ .Buffer .Closed →
        Producer.run write (fuel + 1) p s count = some (.error e, p', s')) ∧
    (∀ (σ : Type) (write : List Transaction → σ → Except BufferError Unit × σ)
        (fuel : Nat) (p : Producer) (s : σ) (count : Nat) (p' : Producer) (s' : σ)
        (max : Nat),
        Producer.produce_once write p s = (.ok (), p', s') →
        p'.config.iterations = some max → max ≤ count + 1 →
        Producer.run write (fuel + 1) p s count = some (.ok (), p', s')) ∧
    (∀ (σ : Type) (write : List Transaction → σ → Except BufferError Unit × σ)
        (fuel : Nat) (p : Producer) (s : σ) (count : Nat)
        (e : ProducerError) (p' : Producer) (s' : σ),
        Producer.run write fuel p s count = some (.error e, p', s') →
        e ≠ .Buffer .Closed) ∧
    (∀ (σ : Type) (P : Ports σ)
        (fuel : Nat) (c : Consumer) (s : σ) (count : Nat) (c' : Consumer) (s' : σ),
        Consumer.consume_once P c s = (.error (.Read .Closed), c', s') →
        Consumer.run P (fuel + 1) c s count = some (.ok (), c', s')) ∧
    (∀ (σ : Type) (P : Ports σ)
        (fuel : Nat) (c : Consumer) (s : σ) (count : Nat)
        (e : ConsumerError) (c' : Consumer) (s' : σ),
        Consumer.consume_once P c s = (.error e, c', s') →
        e ≠ .Read .Closed →
        Consumer.run P (fuel + 1) c s count = some (.error e, c', s')) ∧
    (∀ (σ : Type) (P : Ports σ)
        (fuel : Nat) (c : Consumer) (s : σ) (count : Nat) (c' : Consumer) (s' : σ)
        (errs : List AlarmError) (max : Nat),
        Consumer.consume_once P c s = (.ok errs, c', s') →
        c'.config.iterations = some max → max ≤ count + 1 →
        Consumer.run P (fuel + 1) c s count = some (.ok (), c', s')) ∧
    (∀ (σ : Type) (P : Ports σ)
        (fuel : Nat) (c : Consumer) (s : σ) (count : Nat)
        (e : ConsumerError) (c' : Consumer) (s' : σ),
        Consumer.run P fuel c s count = some (.error e, c', s') →
        e ≠ .Read .Closed) := by
  refine ⟨?_, ?_, ?_, ?_, ?_, ?_, ?_, ?_⟩
  · intro σ write fuel p s count p' s' h
    rw [producer_run_succ_eq, h]
  · intro σ write fuel p s count e p' s' h hne
    rw [producer_run_succ_eq, h]
    cases e with
    | InvalidConfig reason => rfl
    | Buffer be =>
      cases be with
      | Full cap => rfl
      | Closed => exact absurd rfl hne
  · intro σ write fuel p s count p' s' max h hiter hle
    rw [producer_run_succ_eq, h]
    dsimp only
    rw [hiter]
    dsimp only
    rw [if_pos hle]
  · intro σ write fuel
    induction fuel with
    | zero =>
      intro p s count e p' s' h
      simp [Producer.run] at h
    | succ f ih =>
      intro p s count e p' s' h
      rw [producer_run_succ_eq] at h
      rcases hpo : Producer.produce_once write p s with ⟨r, p'', s''⟩
      rw [hpo] at h
      cases r with
      | error pe =>
        cases pe with
        | InvalidConfig reason =>
          dsimp only at h
          simp only [Option.some.injEq, Prod.mk.injEq, Except.error.injEq] at h
          rw [← h.1]
          simp
        | Buffer be =>
          cases be with
          | Full cap =>
            dsimp only at h
            simp only [Option.some.injEq, Prod.mk.injEq, Except.error.injEq] at h
            rw [← h.1]
            simp
          | Closed =>
            dsimp only at h
            simp at h
      | ok u =>
        dsimp only at h
        cases hit : p''.config.iterations with
        | some m =>
          rw [hit] at h
          dsimp only at h
          by_cases hm : m ≤ count + 1
          · rw [if_pos hm] at h
            simp at h
          · rw [if_neg hm] at h
            exact ih p'' s'' (count + 1) e p' s' h
        | none =>
          rw [hit] at h
          dsimp only at h
          exact ih p'' s'' (count + 1) e p' s' h
  · intro σ P fuel c s count c' s' h
    rw [consumer_run_succ_eq, h]
  · intro σ P fuel c s count e c' s' h hne
    rw [consumer_run_succ_eq, h]
    cases e with
    | InvalidConfig reason => rfl
    | Read be =>
      cases be with
      | Full cap => rfl
      | Closed => exact absurd rfl hne
    | Inference me => rfl
    | Write be => rfl
  · intro σ P fuel c s count c' s' errs max h hiter hle
    rw [consumer_run_succ_eq, h]
    dsimp only
    rw [hiter]
    dsimp only
    rw [if_pos hle]
  · intro σ P fuel
    induction fuel with
    | zero =>
      intro c s count e c' s' h
      simp [Consumer.run] at h
    | succ f ih =>
      intro c s count e c' s' h
      rw [consumer_run_succ_eq] at h
      rcases hco : Consumer.consume_once P c s with ⟨r, c'', s''⟩
      rw [hco] at h
      cases r with
      | error ce =>
        cases ce with
        | InvalidConfig reason =>
          dsimp only at h
          simp only [Option.some.injEq, Prod.mk.injEq, Except.error.injEq] at h
          rw [← h.1]
          simp
        | Read be =>
          cases be with
          | Full cap =>
            dsimp only at h
            simp only [Option.some.injEq, Prod.mk.injEq, Except.error.injEq] at h
            rw [← h.1]
            simp
          | Closed =>
            dsimp only at h
            simp at h
        | Inference me =>
          dsimp only at h
          simp only [Option.some.injEq, Prod.mk.injEq, Except.error.injEq] at h
          rw [← h.1]
          simp
        | Write be =>
          dsimp only at h
          simp only [Option.some.injEq, Prod.mk.injEq, Except.error.injEq] at h
          rw [← h.1]
          simp
      | ok errs =>
        dsimp only at h
        cases hit : c''.config.iterations with
        | some m =>
          rw [hit] at h
          dsimp only at h
          by_cases hm : m ≤ count + 1
          · rw [if_pos hm] at h
            simp at h
          · rw [if_neg hm] at h
            exact ih c'' s'' (count + 1) e c' s' h
        | none =>
          rw [hit] at h
          dsimp only at h
          exact ih c'' s'' (count + 1) e c' s' h

/-- A port set whose Buffer1 read immediately signals `Closed` (a drained,
closed pipeline input). -/
def closedInputPorts : Ports Unit where
  read_batch _max s := (.error .Closed, s)
  infer batch s := (.ok (batch.map fun tx => ⟨tx, false, "DEMO", "4"⟩), s)
  trigger _tx s := (.ok (), s)
  write_batch _batch s := (.ok (), s)

theorem run_termination_taxonomy_witness :
    Consumer.run closedInputPorts 1 c0 () 0 =
      some (.ok (), { c0 with rng := (randomRange 1 c0.config.n2_max c0.rng).2 }, ()) :=
  run_termination_taxonomy.2.2.2.2.1 Unit closedInputPorts 0 c0 () 0
    { c0 with rng := (randomRange 1 c0.config.n2_max c0.rng).2 } () rfl

end FraudDetection
